import Mathlib

/-!
Verification development for the Phase 10 rule engine
(`src/game_components.py`, `src/phases.py`).

Cards, decks and the Phase 1 (Doublets x 4) grouping solver, probability
model and discard recommender are embedded shallowly: Python lists become
`List`, dictionaries with a single key become a `Solution` structure,
`dict` number-composition maps become partial functions (`Option`), float
probabilities become `ℚ`, and every Python statement that can raise is
modelled in `Except PyErr`.

`src/enums.py` is not part of the sources; `Color` and the numeric phase
tags are modelled from the spec (four colours in the order used by
`tests.py`, ten phases numbered 1..10).
-/

/-- Modelled from the spec: the four card colours (src/enums.py is absent
from the sources; the order RED, GREEN, YELLOW, PURPLE is the one used by
the colour map in tests.py). -/
inductive Color
  | RED
  | GREEN
  | YELLOW
  | PURPLE
deriving DecidableEq

/-- Modelled from the spec: the enum value of a colour, used by
`Card.__lt__` as the colour rank. -/
def Color.val : Color → Nat
  | .RED => 1
  | .GREEN => 2
  | .YELLOW => 3
  | .PURPLE => 4

/-- The card variant type: `NumberCard(idx, color, _number)` and
`JokerCard(idx, _colors, _numbers)` from game_components.py.  The
dataclass fields are embedded verbatim; no domain validation is attached
to the constructors, mirroring the dataclass-generated `__init__` which
assigns the private fields directly. -/
inductive Card
  | num (idx : Nat) (color : Color) (number : Nat)
  | joker (idx : Nat) (colors : List Color) (numbers : List Nat)
deriving DecidableEq

/-- The mutable `idx` position handle of a card. -/
def Card.cardIdx : Card → Nat
  | .num i _ _ => i
  | .joker i _ _ => i

/-- Functional update of the `idx` handle (Python mutates `card.idx`). -/
def Card.withIdx : Card → Nat → Card
  | .num _ c n, i => .num i c n
  | .joker _ cs ns, i => .joker i cs ns

/-- isinstance(card, NumberCard) -/
def Card.isNum : Card → Bool
  | .num .. => true
  | .joker .. => false

/-- isinstance(card, JokerCard) -/
def Card.isJoker : Card → Bool
  | .num .. => false
  | .joker .. => true

/-- numbers list of a joker (`card.numbers`); never queried on a
NumberCard by the embedded code paths. -/
def Card.jokerNums : Card → List Nat
  | .num .. => []
  | .joker _ _ ns => ns

/-- `Card.__lt__` from game_components.py: every NumberCard sorts before
every JokerCard; NumberCards by (colour rank, number); JokerCards by
(first colour's rank, then first number).  Python indexes `colors[0]` /
`numbers[0]`; cards built by the source's deck constructor always have
non-empty lists, so the `headD` defaults are never hit there. -/
def Card.pyLt : Card → Card → Bool
  | .num .., .joker .. => true
  | .joker .., .num .. => false
  | .num _ c1 n1, .num _ c2 n2 =>
      if c1 = c2 then decide (n1 < n2) else decide (Color.val c1 < Color.val c2)
  | .joker _ cs1 ns1, .joker _ cs2 ns2 =>
      if cs1.headD .RED = cs2.headD .RED then decide (ns1.headD 0 < ns2.headD 0)
      else decide (Color.val (cs1.headD .RED) < Color.val (cs2.headD .RED))

/-- Stable insertion of a card into an already-processed prefix: `x` goes
in front of the first element it is strictly `pyLt`-below, hence after all
elements it compares equal to.  This reproduces the stability of Python's
`list.sort`. -/
def pyInsert (x : Card) : List Card → List Card
  | [] => [x]
  | y :: ys => if Card.pyLt x y then x :: y :: ys else y :: pyInsert x ys

/-- Stable sort by `Card.pyLt`, the order used by `list.sort` on cards. -/
def pySort (l : List Card) : List Card :=
  l.foldl (fun acc x => pyInsert x acc) []

/-- `Deck.reindex_cards` body: assign `card.idx = i` for position `i`,
counting from `k`. -/
def reindexFrom (k : Nat) : List Card → List Card
  | [] => []
  | c :: cs => c.withIdx k :: reindexFrom (k + 1) cs

/-- `Deck.reindex_cards`: handles are reassigned to the current order. -/
def reindexCards (l : List Card) : List Card :=
  reindexFrom 0 l

/-- The `Deck` dataclass: an ordered list of cards plus the `_size`
bookkeeping counter and the `_is_sorted` flag.  `Hand` and `DiscardPile`
are the same container. -/
structure Deck where
  cards : List Card
  sizeCount : Int := 0
  isSorted : Bool := false
deriving DecidableEq

/-- `Deck.reindex_cards` as a deck operation. -/
def Deck.reindex_cards (d : Deck) : Deck :=
  { d with cards := reindexCards d.cards }

/-- `Deck.sort_deck`: sorts and reindexes only when the `_is_sorted` flag
is not already set. -/
def Deck.sort_deck (d : Deck) : Deck :=
  if d.isSorted then d
  else { d with cards := reindexCards (pySort d.cards), isSorted := true }

/-- `Deck.add_card`: inserts at the front of the list, clears the sorted
flag and bumps `_size`; it does not reindex. -/
def Deck.add_card (d : Deck) (c : Card) : Deck :=
  { d with cards := c :: d.cards, sizeCount := d.sizeCount + 1, isSorted := false }

/-- Python errors surfaced by the embedded code paths. -/
inductive PyErr
  | keyError (n : Nat)
  | indexError
  | valueErrorEmptyMin
  | typeErrorNotCallable
  | typeErrorUnhashable
deriving DecidableEq

/-- `Deck.draw_card`: returns None on an empty deck, otherwise pops the
card at `card_idx` (an out-of-range non-negative index raises IndexError
in Python; negative indices do not occur in the sources). -/
def Deck.draw_card (d : Deck) (i : Nat) : Except PyErr (Option Card × Deck) :=
  if d.cards.length = 0 then .ok (none, d)
  else
    match d.cards.get? i with
    | some c => .ok (some c, { d with cards := d.cards.eraseIdx i, sizeCount := d.sizeCount - 1 })
    | none => .error .indexError

/-- `Deck.get_card`: None on an empty deck, otherwise `cards[card_idx]`
(out of range raises IndexError). -/
def Deck.get_card (d : Deck) (i : Nat) : Except PyErr (Option Card) :=
  if d.cards.length = 0 then .ok none
  else
    match d.cards.get? i with
    | some c => .ok (some c)
    | none => .error .indexError

/-- `Deck.number_cards` property: the number cards in deck order. -/
def Deck.number_cards (d : Deck) : List Card :=
  d.cards.filter Card.isNum

/-- `Deck.jokers` property: the joker cards in deck order. -/
def Deck.jokers (d : Deck) : List Card :=
  d.cards.filter Card.isJoker

/-- Count of deck cards bearing number `n` for `number_value_counts`:
each NumberCard counts for its own number, and (when `include_jokers`)
each JokerCard counts once for every number it covers. -/
def numberCount (includeJokers : Bool) (cards : List Card) (n : Nat) : Nat :=
  (cards.map (fun c =>
    match c with
    | .num _ _ m => if m = n then 1 else 0
    | .joker _ _ ns => if includeJokers ∧ n ∈ ns then 1 else 0)).sum

/-- `Deck.number_value_counts` viewed as the partial map it builds: the
dictionary holds a key exactly for the numbers that occur in the deck, so
a number with count 0 is absent (`none`) and an unguarded `[]` lookup on
it raises KeyError.  With `percentage` the count is divided by the number
of cards in the deck. -/
def Deck.number_value_counts (d : Deck) (includeJokers percentage : Bool) (n : Nat) :
    Option ℚ :=
  let c := numberCount includeJokers d.cards n
  if c = 0 then none
  else some (if percentage then (c : ℚ) / (d.cards.length : ℚ) else (c : ℚ))

/-- One Python "solution" dict `{key: [cards]}` of
`Phase1Doublets4.check_solutions`: a single target value and the cards
assigned to it. -/
structure Solution where
  key : Nat
  cards : List Card
deriving DecidableEq

/-- Step 1 inner scan of `check_solutions`: append the number card to the
first existing group with its number as key and fewer than 2 members;
otherwise open a new singleton group at the end of the list. -/
def insertNum (c : Card) (n : Nat) : List Solution → List Solution
  | [] => [⟨n, [c]⟩]
  | g :: gs =>
      if g.key = n ∧ g.cards.length < 2 then ⟨g.key, g.cards ++ [c]⟩ :: gs
      else g :: insertNum c n gs

/-- Step 1 loop body: only number cards are iterated
(`hand.number_cards`), so the joker branch is never reached. -/
def insertNumberCard (sols : List Solution) (c : Card) : List Solution :=
  match c with
  | .num _ _ n => insertNum c n sols
  | .joker .. => sols

/-- Step 1 of `check_solutions`: fold the hand's number cards, in sorted
hand order, into value groups. -/
def step1 (sols : List Solution) (cs : List Card) : List Solution :=
  cs.foldl insertNumberCard sols

/-- Does the discard pile's top card fit a group key: a NumberCard fits
its own number, a JokerCard fits any of its eligible numbers. -/
def keyFits (t : Card) (k : Nat) : Bool :=
  match t with
  | .num _ _ n => decide (k = n)
  | .joker _ _ ns => decide (k ∈ ns)

/-- Step 2 guard: the group is incomplete (fewer than 2 members) and the
top discard card fits its key. -/
def borrowFit (t : Card) (g : Solution) : Bool :=
  decide (g.cards.length < 2) && keyFits t g.key

/-- Extend a group by the borrowed discard-pile card. -/
def extendSol (g : Solution) (t : Card) : Solution :=
  ⟨g.key, g.cards ++ [t]⟩

/-- Step 2 scan of `check_solutions`: walk the groups in creation order,
attach the top discard card to the first incomplete group it fits and
stop (`break`), reporting whether the draw-from-discard-pile flag was
set. -/
def attachDiscard (t : Card) : List Solution → List Solution × Bool
  | [] => ([], false)
  | g :: gs =>
      if borrowFit t g then (extendSol g t :: gs, true)
      else
        let r := attachDiscard t gs
        (g :: r.1, r.2)

/-- Step 2 of `check_solutions`: `discard_pile.get_card()` yields the top
card or None; the scan runs only when a card is visible. -/
def step2 (discard : Deck) (sols : List Solution) : List Solution × Bool :=
  match discard.cards.head? with
  | none => (sols, false)
  | some t => attachDiscard t sols

/-- Step 3 scan: attach the joker to the first incomplete group whose key
is among its eligible numbers; `none` when no group accepts it. -/
def attachJoker (j : Card) : List Solution → Option (List Solution)
  | [] => none
  | g :: gs =>
      if g.cards.length < 2 ∧ g.key ∈ j.jokerNums then some (⟨g.key, g.cards ++ [j]⟩ :: gs)
      else
        match attachJoker j gs with
        | some r => some (g :: r)
        | none => none

/-- Step 3 body for one joker: attach it if possible, otherwise append a
new singleton group for each of its eligible numbers. -/
def addJoker (sols : List Solution) (j : Card) : List Solution :=
  match attachJoker j sols with
  | some r => r
  | none => sols ++ j.jokerNums.map (fun n => ⟨n, [j]⟩)

/-- Step 3 of `check_solutions`: fold the hand's jokers into the groups. -/
def step3 (sols : List Solution) (js : List Card) : List Solution :=
  js.foldl addJoker sols

/-- `Phase1Doublets4.check_solutions` with its default empty initial
solution list: sort (and reindex) the hand, group the number cards, try
to borrow the top discard card, then place the jokers.  Returns the
sorted hand, the groups, and the draw-from-discard-pile flag. -/
def check_solutions (discard hand : Deck) : Deck × List Solution × Bool :=
  let h := hand.sort_deck
  let s1 := step1 [] h.number_cards
  let p := step2 discard s1
  let s3 := step3 p.1 h.jokers
  (h, s3, p.2)

/-- `Phase1Doublets4.finished_phase`: at least 4 groups with 2 or more
members. -/
def finished_phase (sols : List Solution) : Bool :=
  4 ≤ (sols.filter (fun g => 2 ≤ g.cards.length)).length

/-- The a posteriori lookup `a_posteriori[number]` used by `_eval_card`:
`number_value_counts(percentage=True, include_jokers=True)` followed by
an unguarded dictionary access, which raises KeyError when the number no
longer occurs in the deck. -/
def aPosterioriAt (deck : Deck) (n : Nat) : Except PyErr ℚ :=
  match deck.number_value_counts true true n with
  | some q => .ok q
  | none => .error (.keyError n)

/-- The joker branch of `_eval_card`:
`sum([a_posteriori[number] for number in card.numbers])`, evaluated left
to right, the first missing key raising. -/
def sumPosteriori (deck : Deck) : List Nat → Except PyErr ℚ
  | [] => .ok 0
  | n :: ns =>
      match aPosterioriAt deck n with
      | .ok q =>
          match sumPosteriori deck ns with
          | .ok s => .ok (q + s)
          | .error e => .error e
      | .error e => .error e

/-- `_eval_card` of `calculate_card_probabilities`: a NumberCard scores
its own number's a posteriori fraction, a JokerCard the sum over all its
eligible numbers. -/
def evalCardProb (deck : Deck) : Card → Except PyErr ℚ
  | .num _ _ n => aPosterioriAt deck n
  | .joker _ _ ns => sumPosteriori deck ns

/-- `probs[i] = v` on the Python list: raises IndexError when `i` is out
of range (as happens when a borrowed discard card carries a stale handle
at least as large as the hand). -/
def setProb (probs : List ℚ) (i : Nat) (v : ℚ) : Except PyErr (List ℚ) :=
  if i < probs.length then .ok (probs.set i v) else .error .indexError

/-- Completed-group branch: `probs[card.idx] = 1` for every member. -/
def applyCardsOne (probs : List ℚ) : List Card → Except PyErr (List ℚ)
  | [] => .ok probs
  | c :: cs =>
      match setProb probs c.cardIdx 1 with
      | .ok p => applyCardsOne p cs
      | .error e => .error e

/-- Incomplete-group branch: `probs[card.idx] = _eval_card(card)` for
every member (the dead `isinstance(cards, list)` arm of the source is
never taken: group members are cards). -/
def applyCardsEval (deck : Deck) (probs : List ℚ) : List Card → Except PyErr (List ℚ)
  | [] => .ok probs
  | c :: cs =>
      match evalCardProb deck c with
      | .ok v =>
          match setProb probs c.cardIdx v with
          | .ok p => applyCardsEval deck p cs
          | .error e => .error e
      | .error e => .error e

/-- Per-group write of `calculate_card_probabilities`: members of a
group of exactly 2 get probability 1, members of any other group get
their `_eval_card` score. -/
def applySolution (deck : Deck) (probs : List ℚ) (g : Solution) : Except PyErr (List ℚ) :=
  if g.cards.length = 2 then applyCardsOne probs g.cards
  else applyCardsEval deck probs g.cards

/-- Fold of the per-group writes over the solution list, in order. -/
def applySolutions (deck : Deck) (probs : List ℚ) : List Solution → Except PyErr (List ℚ)
  | [] => .ok probs
  | g :: gs =>
      match applySolution deck probs g with
      | .ok p => applySolutions deck p gs
      | .error e => .error e

/-- `Phase1Doublets4.calculate_card_probabilities`: start from
`[0 for _ in hand.cards]` and process every solution group in order. -/
def calculate_card_probabilities (deck hand : Deck) (sols : List Solution) :
    Except PyErr (List ℚ) :=
  applySolutions deck (hand.cards.map (fun _ => (0 : ℚ))) sols

/-- One comparison step of Python's `min`: the current value is kept
unless the next element is strictly smaller, so the first of several
equal minima survives. -/
def pyMin2 (a b : ℚ) : ℚ :=
  if b < a then b else a

/-- Python `min(probs)`: None on an empty list (ValueError), otherwise
the left fold of the comparison step over the remaining elements. -/
def listMin : List ℚ → Option ℚ
  | [] => none
  | x :: xs => some (xs.foldl pyMin2 x)

/-- Python `probs.index(m)`: index of the first occurrence. -/
def pyIndex (m : ℚ) : List ℚ → Nat
  | [] => 0
  | x :: xs => if x = m then 0 else pyIndex m xs + 1

/-- Result of `Phase1Doublets4.evaluate_hand`: either the phase is
finished (`(True, None)` in the source) or a discard recommendation with
the full probability vector. -/
inductive EvalResult
  | completion
  | recommendation (card : Card) (probs : List ℚ)
deriving DecidableEq

/-- `Phase1Doublets4.evaluate_hand`: build the solutions, report
completion when 4 pairs exist, otherwise compute the probability vector
and return the card at the first index attaining the minimum.
`min([])` raises ValueError on an empty hand; `hand.get_card` can only
return None for an empty hand, which that ValueError already precludes,
and an out-of-range index (impossible for a fresh first-occurrence
index) would raise IndexError. -/
def evaluate_hand (deck discard hand : Deck) : Except PyErr EvalResult :=
  let r := check_solutions discard hand
  if finished_phase r.2.1 then .ok .completion
  else
    match calculate_card_probabilities deck r.1 r.2.1 with
    | .error e => .error e
    | .ok probs =>
        match listMin probs with
        | none => .error .valueErrorEmptyMin
        | some m =>
            match r.1.cards.get? (pyIndex m probs) with
            | some c => .ok (.recommendation c probs)
            | none => .error .indexError

/-- The evaluator object returned by `get_phase` for DOUBLETS_4:
`Phase1Doublets4` is a dataclass with fields deck, discard_pile,
draw_from_discard_pile (default False) and player_action (default ""). -/
inductive PhaseInstance
  | doublets4 (deck discard : Deck) (draw_from_discard_pile : Bool) (player_action : String)
deriving DecidableEq

/-- Failures of the catalog lookup `get_phase`. -/
inductive PhaseErr
  | unknownPhase
  | typeErrorMissingDiscardPile
deriving DecidableEq

/-- Construction of any of Phase2SameColor6 .. Phase10... by `get_phase`:
these classes are not dataclasses and inherit
`Phase.__init__(self, deck, discard_pile)`, but `get_phase` passes only
`deck=deck`, so Python raises TypeError (missing required positional
argument 'discard_pile') before an instance exists. -/
def mkPhaseDeckOnly : Except PhaseErr PhaseInstance :=
  .error .typeErrorMissingDiscardPile

/-- `get_phase` over the ten phase tags.  The tags themselves come from
the absent src/enums.py and are modelled from the spec as the numbers
1..10 (DOUBLETS_4 = 1, SAME_COLOR_6 = 2, ..); any other value falls
through every branch to `raise ValueError("Phase not found")`, the
spec's UnknownPhaseError. -/
def get_phase (tag : Nat) (deck discard : Deck) : Except PhaseErr PhaseInstance :=
  if tag = 1 then .ok (.doublets4 deck discard false "")
  else if tag = 2 then mkPhaseDeckOnly
  else if tag = 3 then mkPhaseDeckOnly
  else if tag = 4 then mkPhaseDeckOnly
  else if tag = 5 then mkPhaseDeckOnly
  else if tag = 6 then mkPhaseDeckOnly
  else if tag = 7 then mkPhaseDeckOnly
  else if tag = 8 then mkPhaseDeckOnly
  else if tag = 9 then mkPhaseDeckOnly
  else if tag = 10 then mkPhaseDeckOnly
  else .error .unknownPhase

/-- An entry of the list built by the `Deck.get_numbers` property: the
number of a NumberCard, or the whole numbers list of a JokerCard. -/
inductive NumEntry
  | single (v : Nat)
  | several (vs : List Nat)
deriving DecidableEq

/-- The value of the `Deck.get_numbers` property. -/
def get_numbers (d : Deck) : List NumEntry :=
  d.cards.map (fun c =>
    match c with
    | .num _ _ m => .single m
    | .joker _ _ vs => .several vs)

/-- Python call applied to the value of the `get_numbers` property:
`hand.get_numbers` is already a list (the attribute is a property), so
the trailing `()` written in phases.py calls a list object, which raises
TypeError ('list' object is not callable) whatever the list holds. -/
def pyCallList (_vals : List NumEntry) : Except PyErr (List NumEntry) :=
  .error .typeErrorNotCallable

/-- `value_counts[number] = value_counts.get(number, 0) + 1` on an
insertion-ordered association list. -/
def bumpCount (k : Nat) : List (Nat × Nat) → List (Nat × Nat)
  | [] => [(k, 1)]
  | (k', c) :: rest => if k' = k then (k', c + 1) :: rest else (k', c) :: bumpCount k rest

/-- The value-counts loop of the stub phase evaluators; a `several`
entry (a joker's numbers list) is an unhashable dict key and raises
TypeError. -/
def buildValueCounts (entries : List NumEntry) : Except PyErr (List (Nat × Nat)) :=
  entries.foldl
    (fun acc e =>
      match acc with
      | .error err => .error err
      | .ok vc =>
          match e with
          | .single v => .ok (bumpCount v vc)
          | .several _ => .error .typeErrorUnhashable)
    (.ok [])

/-- `Phase7Quadruplets2.evaluate_hand`: `numbers = hand.get_numbers()`
calls the property's list value, then counts values and tests
`sum(val == 4 for val in value_counts.values()) >= 2`.  The property
call raises before any counting happens. -/
def phase7_evaluate_hand (hand : Deck) : Except PyErr Bool :=
  match pyCallList (get_numbers hand) with
  | .error e => .error e
  | .ok entries =>
      match buildValueCounts entries with
      | .error e => .error e
      | .ok vc => .ok (2 ≤ (vc.filter (fun kv => kv.2 = 4)).length)

/-- Modelled from the spec: phase 7's completion target as stated,
"at least two distinct values each with count ≥ 4" among the hand's
number cards. -/
def phase7_spec (hand : Deck) : Bool :=
  2 ≤ ((List.range 13).filter (fun n =>
    4 ≤ (hand.cards.filter (fun c =>
      match c with
      | .num _ _ m => decide (m = n)
      | .joker .. => false)).length)).length

/-- The dataclass-generated `NumberCard.__init__`: assigns `idx`,
`color` and the private field `_number` directly, so the validating
`number` property setter never runs and construction always succeeds. -/
def mkNumberCard (idx : Nat) (color : Color) (number : Nat) : Card :=
  .num idx color number

/-- The dataclass-generated `JokerCard.__init__`: assigns `idx`,
`_colors` and `_numbers` directly, bypassing both validating setters. -/
def mkJokerCard (idx : Nat) (colors : List Color) (numbers : List Nat) : Card :=
  .joker idx colors numbers

/-- The guard of the `number` property setter of NumberCard:
`1 <= value <= 12`, ValueError otherwise (stated on Nat inputs; Python
also rejects negatives). -/
def number_setter_ok (v : Nat) : Bool :=
  decide (1 ≤ v) && decide (v ≤ 12)

/-- The guard of the `colors` property setter of JokerCard:
`len(value) in [2, 4]`. -/
def colors_setter_ok (cs : List Color) : Bool :=
  decide (cs.length = 2) || decide (cs.length = 4)

/-- The guard of the `numbers` property setter of JokerCard:
`value in [[1..6], [7..12]]`. -/
def numbers_setter_ok (ns : List Nat) : Bool :=
  decide (ns = [1, 2, 3, 4, 5, 6]) || decide (ns = [7, 8, 9, 10, 11, 12])

/-- The handle invariant of the spec: every card's `idx` equals its
zero-based position in the container's card list. -/
def handleInv (l : List Card) : Prop :=
  ∀ i : Fin l.length, (l.get i).cardIdx = i.val

deriving instance DecidableEq for Except

instance handleInvDec (l : List Card) : Decidable (handleInv l) :=
  inferInstanceAs (Decidable (∀ i : Fin l.length, (l.get i).cardIdx = i.val))

/-- An empty container (fresh DiscardPile, or an exhausted deck). -/
def emptyDeck : Deck := ⟨[], 0, false⟩

/-- A four-colour 1-6 joker at hand position 0. -/
def jokerAll16 : Card := .joker 0 [.RED, .GREEN, .YELLOW, .PURPLE] [1, 2, 3, 4, 5, 6]

/-- A RED/YELLOW 1-6 joker at hand position 1. -/
def jokerRY16 : Card := .joker 1 [.RED, .YELLOW] [1, 2, 3, 4, 5, 6]

/-- A hand holding only the two 1-6 jokers above. -/
def handTwoJokers : Deck := ⟨[jokerAll16, jokerRY16], 0, false⟩

/-- A draw deck reduced to a single 1-6 joker, so every number 1..6 has
a posteriori fraction 1 and a 1-6 joker's `_eval_card` sum is 6. -/
def deckOneJoker : Deck := ⟨[.joker 0 [.RED, .GREEN] [1, 2, 3, 4, 5, 6]], 0, false⟩

/-- A hand holding RED 1 and RED 2 (already in sorted order). -/
def handRed12 : Deck := ⟨[.num 0 .RED 1, .num 1 .RED 2], 0, false⟩

/-- A discard pile whose visible top card is PURPLE 2 carrying the stale
handle 0 from the hand it was discarded from. -/
def discardPurple2 : Deck := ⟨[.num 0 .PURPLE 2], 0, false⟩

/-- A draw deck holding one card of number 1 and one of number 2, so both
a posteriori fractions are 1/2. -/
def deckRed12 : Deck := ⟨[.num 0 .RED 1, .num 1 .RED 2], 0, false⟩

/-- A hand holding a single unpaired RED/GREEN 1-6 joker. -/
def handOneJoker : Deck := ⟨[.joker 0 [.RED, .GREEN] [1, 2, 3, 4, 5, 6]], 0, false⟩

/-- A hand with two quadruplets: four cards of number 1 and four of
number 2. -/
def handTwoQuads : Deck :=
  ⟨[.num 0 .RED 1, .num 1 .RED 1, .num 2 .GREEN 1, .num 3 .GREEN 1,
    .num 4 .RED 2, .num 5 .RED 2, .num 6 .GREEN 2, .num 7 .GREEN 2], 0, false⟩

/-- A hand holding a single RED 5. -/
def handRed5 : Deck := ⟨[.num 0 .RED 5], 0, false⟩

/-- C1.  The claim fails on the code: in the hand of two 1-6 jokers with
no discard card, the grouping solver pairs the two jokers in the group
keyed 1 (a size-2 group containing `jokerAll16`), yet the returned
probability vector is [6, 1]: the entry of `jokerAll16` is its
a posteriori sum 6, not 1.0, because the joker's five leftover singleton
candidate groups are processed after the pair and overwrite the 1.  This
contradicts the method's own docstring ("All cards that are already part
of a pair have a probability of 1"), so the code, not the claim, is
wrong. -/
theorem C1_pair_member_not_scored_one :
    (check_solutions emptyDeck handTwoJokers).2.1.head? =
      some ⟨1, [jokerAll16, jokerRY16]⟩
    ∧ evaluate_hand deckOneJoker emptyDeck handTwoJokers =
      .ok (.recommendation jokerRY16 [6, 1])
    ∧ ([(6 : ℚ), 1].get? jokerAll16.cardIdx ≠ some 1) := by
  with_unfolding_all decide

/-- C2.  The claim fails on the code: with hand [RED 1, RED 2], discard
top PURPLE 2 carrying stale handle 0, and a 2-card deck, the solver
borrows PURPLE 2 into the group keyed 2; when that completed group is
processed, `probs[draw_option.idx] = probs[0] = 1` overwrites the score
of RED 1, which sits in the incomplete group keyed 1 and should have
scored its a posteriori fraction 1/2.  This contradicts the code's own
comment ("all other cards get their a_posteriori probability"): the
stale discard handle aliases a hand handle. -/
theorem C2_incomplete_card_scored_by_alias :
    evaluate_hand deckRed12 discardPurple2 handRed12 =
      .ok (.recommendation (.num 0 .RED 1) [1, 1])
    ∧ (check_solutions discardPurple2 handRed12).2.1.head? =
      some ⟨1, [.num 0 .RED 1]⟩
    ∧ deckRed12.number_value_counts true true 1 = some (1 / 2) := by
  with_unfolding_all decide

/-- C3 counterexample.  The claim's disjointness half fails on the code:
a joker that matches no existing incomplete group is appended to one new
singleton group per eligible number, so the same card belongs to two
(indeed six) distinct output groups. -/
theorem C3_unplaced_joker_in_two_groups :
    ∃ g1 g2 : Solution,
      g1 ∈ (check_solutions emptyDeck handOneJoker).2.1
      ∧ g2 ∈ (check_solutions emptyDeck handOneJoker).2.1
      ∧ g1 ≠ g2
      ∧ Card.joker 0 [.RED, .GREEN] [1, 2, 3, 4, 5, 6] ∈ g1.cards
      ∧ Card.joker 0 [.RED, .GREEN] [1, 2, 3, 4, 5, 6] ∈ g2.cards := by
  refine ⟨⟨1, [.joker 0 [.RED, .GREEN] [1, 2, 3, 4, 5, 6]]⟩,
          ⟨2, [.joker 0 [.RED, .GREEN] [1, 2, 3, 4, 5, 6]]⟩, ?_, ?_, ?_, ?_, ?_⟩ <;>
    with_unfolding_all decide

/-- C5.  The claim fails on the code for nine of the ten tags: get_phase
for tag 2 (SAME_COLOR_6) — and likewise tags 3..10 — calls a class that
is not a dataclass and inherits `Phase.__init__(self, deck,
discard_pile)` while passing only `deck`, so Python raises TypeError
instead of returning an evaluator.  Tag 1 does return the
Phase1Doublets4 instance, and an unrecognized tag does fail with the
catalog's ValueError ("Phase not found"), the spec's UnknownPhaseError. -/
theorem C5_phase_lookup_type_error :
    get_phase 2 emptyDeck emptyDeck = .error .typeErrorMissingDiscardPile
    ∧ (∀ t ∈ [2, 3, 4, 5, 6, 7, 8, 9, 10],
        get_phase t emptyDeck emptyDeck = .error .typeErrorMissingDiscardPile)
    ∧ get_phase 1 emptyDeck emptyDeck = .ok (.doublets4 emptyDeck emptyDeck false "")
    ∧ get_phase 0 emptyDeck emptyDeck = .error .unknownPhase
    ∧ get_phase 11 emptyDeck emptyDeck = .error .unknownPhase := by
  with_unfolding_all decide

/-- C6.  The claim fails on the code for every hand: `Phase7Quadruplets2.
evaluate_hand` executes `hand.get_numbers()`, but `Deck.get_numbers` is a
property whose value is already a list, so the call raises TypeError
('list' object is not callable) before any counting; on the two-quadruplet
hand the spec predicate is true yet the evaluator errors.  (Even behind
the crash the source counts values with `val == 4`, not `>= 4`.) -/
theorem C6_phase7_predicate_type_error :
    phase7_evaluate_hand handTwoQuads = .error .typeErrorNotCallable
    ∧ phase7_spec handTwoQuads = true := by
  with_unfolding_all decide

/-- C7.  The claim fails on the code: the dataclass-generated `__init__`
of NumberCard and JokerCard assigns the private fields `_number`,
`_colors`, `_numbers` directly, so out-of-domain cards are constructed
without error; the validating property setters (whose guards are
embedded alongside) reject exactly those values but only run on explicit
attribute assignment after construction. -/
theorem C7_card_construction_skips_validation :
    mkNumberCard 0 .RED 13 = .num 0 .RED 13
    ∧ number_setter_ok 13 = false
    ∧ mkJokerCard 0 [.RED] [2, 3] = .joker 0 [.RED] [2, 3]
    ∧ colors_setter_ok [.RED] = false
    ∧ numbers_setter_ok [2, 3] = false := by
  with_unfolding_all decide

/-- C9 counterexample.  The claim fails on the code: `add_card` inserts
at position 0 without reindexing, so immediately afterwards the inserted
card's handle (5) differs from its position (0) and every other card's
handle is off by one. -/
theorem C9_add_card_leaves_stale_handles :
    ¬ handleInv ((Deck.add_card ⟨[.num 0 .RED 1], 0, false⟩ (.num 5 .RED 2)).cards) := by
  with_unfolding_all decide

/-- C10.  Confirmed: with a deck holding no card of number 5, the number
5 is absent from `number_value_counts`' mapping, and evaluating the hand
[RED 5] fails with the missing-key error from the unguarded
`a_posteriori[card.number]` lookup instead of scoring 0. -/
theorem C10_missing_number_key_raises :
    evaluate_hand emptyDeck emptyDeck handRed5 = .error (.keyError 5)
    ∧ emptyDeck.number_value_counts true true 5 = none
    ∧ aPosterioriAt emptyDeck 5 = .error (.keyError 5) := by
  with_unfolding_all decide

theorem reindexFrom_length (k : Nat) (l : List Card) :
    (reindexFrom k l).length = l.length := by
  induction l generalizing k with
  | nil => rfl
  | cons c cs ih => simp [reindexFrom, ih]

theorem cardIdx_withIdx (c : Card) (m : Nat) : (c.withIdx m).cardIdx = m := by
  cases c <;> rfl

theorem reindexFrom_get? (k i : Nat) (l : List Card) :
    (reindexFrom k l).get? i = (l.get? i).map (fun c => c.withIdx (k + i)) := by
  induction l generalizing k i with
  | nil => simp [reindexFrom]
  | cons c cs ih =>
    cases i with
    | zero => simp [reindexFrom]
    | succ j =>
      simp only [reindexFrom, List.get?_cons_succ]
      rw [ih (k + 1) j]
      have harith : k + 1 + j = k + (j + 1) := by omega
      rw [harith]

theorem handleInv_reindex (l : List Card) : handleInv (reindexCards l) := by
  intro i
  have hlen : (reindexCards l).length = l.length := reindexFrom_length 0 l
  have hlt : i.val < l.length := lt_of_lt_of_eq i.isLt hlen
  have h1 : (reindexCards l).get? i.val = some ((reindexCards l).get i) :=
    List.get?_eq_get i.isLt
  have h2 : (reindexCards l).get? i.val
      = Option.map (fun c => c.withIdx (0 + i.val)) (l.get? i.val) :=
    reindexFrom_get? 0 i.val l
  rw [h1, List.get?_eq_get hlt] at h2
  simp only [Option.map_some'] at h2
  have h3 := congrArg Card.cardIdx (Option.some.inj h2)
  rw [cardIdx_withIdx] at h3
  omega

/-- C9 (amended).  Only `reindex_cards`, `sort_deck` on a deck not yet
flagged sorted (the operation actually run on the hand before
probabilities are computed) and the shuffle that calls `reindex_cards`
re-establish the handle/position correspondence; `add_card` merely
prepends the card as-is (and `draw_card`/`remove_card` pop as-is), so
handles are stale from a mutation until the next reindex. -/
theorem C9_reindex_and_sort_restore_handles (d : Deck) :
    handleInv d.reindex_cards.cards
    ∧ (d.isSorted = false → handleInv d.sort_deck.cards)
    ∧ (∀ c : Card, (d.add_card c).cards = c :: d.cards) := by
  refine ⟨handleInv_reindex d.cards, ?_, fun c => rfl⟩
  intro h
  simp only [Deck.sort_deck, h]
  simpa using handleInv_reindex (pySort d.cards)

/-- Witness for C9 at a concrete unsorted two-card deck with scrambled
handles. -/
theorem C9_reindex_and_sort_restore_handles_witness :
    handleInv (Deck.reindex_cards ⟨[.num 3 .RED 1, .num 0 .GREEN 2], 0, false⟩).cards
    ∧ handleInv (Deck.sort_deck ⟨[.num 3 .RED 1, .num 0 .GREEN 2], 0, false⟩).cards
    ∧ (Deck.add_card ⟨[.num 3 .RED 1, .num 0 .GREEN 2], 0, false⟩ (.num 7 .PURPLE 9)).cards
      = .num 7 .PURPLE 9 :: [.num 3 .RED 1, .num 0 .GREEN 2] := by
  have h := C9_reindex_and_sort_restore_handles ⟨[.num 3 .RED 1, .num 0 .GREEN 2], 0, false⟩
  exact ⟨h.1, h.2.1 rfl, h.2.2 (.num 7 .PURPLE 9)⟩

theorem attachDiscard_length (t : Card) (sols : List Solution) :
    (attachDiscard t sols).1.length = sols.length := by
  induction sols with
  | nil => rfl
  | cons g gs ih =>
    cases h : borrowFit t g with
    | true => simp [attachDiscard, h]
    | false => simp [attachDiscard, h, ih]

theorem attachDiscard_first (t : Card) (sols : List Solution) (i : Nat)
    (hi : i < sols.length)
    (hfit : borrowFit t (sols.get ⟨i, hi⟩) = true)
    (hfirst : ∀ j (hj : j < sols.length), j < i → borrowFit t (sols.get ⟨j, hj⟩) = false) :
    attachDiscard t sols = (sols.set i (extendSol (sols.get ⟨i, hi⟩) t), true) := by
  induction sols generalizing i with
  | nil => exact absurd hi (Nat.not_lt_zero i)
  | cons g gs ih =>
    cases i with
    | zero =>
      have hg : borrowFit t g = true := hfit
      simp [attachDiscard, hg]
    | succ i' =>
      have h0 : borrowFit t g = false := hfirst 0 (Nat.succ_pos _) (Nat.succ_pos i')
      have hi' : i' < gs.length := Nat.lt_of_succ_lt_succ hi
      have hfit' : borrowFit t (gs.get ⟨i', hi'⟩) = true := hfit
      have hfirst' : ∀ j (hj : j < gs.length), j < i' →
          borrowFit t (gs.get ⟨j, hj⟩) = false := by
        intro j hj hji
        exact hfirst (j + 1) (Nat.succ_lt_succ hj) (Nat.succ_lt_succ hji)
      simp [attachDiscard, h0, ih i' hi' hfit' hfirst']

/-- C8.  Confirmed: when the discard pile is empty, step 2 leaves the
groups untouched and the flag unset; the number of groups is always
preserved (no new group, and at most the one borrowed card is added,
into a single group); and when a top card is visible and `i` is the
first position whose group is incomplete and fits the card, exactly
group `i` is extended by that card and the flag is set, every other
group surviving unchanged (the scan stops at `i`). -/
theorem C8_borrow_attaches_first_incomplete_fit (discard : Deck) (sols : List Solution) :
    (discard.cards.head? = none → step2 discard sols = (sols, false))
    ∧ (step2 discard sols).1.length = sols.length
    ∧ (∀ t, discard.cards.head? = some t →
        ∀ i (hi : i < sols.length),
          borrowFit t (sols.get ⟨i, hi⟩) = true →
          (∀ j (hj : j < sols.length), j < i → borrowFit t (sols.get ⟨j, hj⟩) = false) →
          step2 discard sols = (sols.set i (extendSol (sols.get ⟨i, hi⟩) t), true)) := by
  refine ⟨?_, ?_, ?_⟩
  · intro h
    simp [step2, h]
  · cases h : discard.cards.head? with
    | none => simp [step2, h]
    | some t => simp [step2, h, attachDiscard_length]
  · intro t ht i hi hfit hfirst
    simp [step2, ht, attachDiscard_first t sols i hi hfit hfirst]

/-- The two starting groups of the C8 witness: a completed pair of 1s
and an incomplete singleton keyed 2. -/
def solsPairAndSingle : List Solution :=
  [⟨1, [.num 0 .RED 1, .num 1 .GREEN 1]⟩, ⟨2, [.num 2 .RED 2]⟩]

/-- Witness for C8: the full group keyed 1 is skipped even though the
top card PURPLE 2 is scanned past it, the incomplete group keyed 2
receives the card, and the flag is set. -/
theorem C8_borrow_attaches_first_incomplete_fit_witness :
    step2 discardPurple2 solsPairAndSingle =
      ([⟨1, [.num 0 .RED 1, .num 1 .GREEN 1]⟩,
        ⟨2, [.num 2 .RED 2, .num 0 .PURPLE 2]⟩], true) := by
  have h := (C8_borrow_attaches_first_incomplete_fit discardPurple2 solsPairAndSingle).2.2
      (.num 0 .PURPLE 2) (by with_unfolding_all decide) 1 (by with_unfolding_all decide)
      (by with_unfolding_all decide)
      (fun j hj hj1 => by
        have hj0 : j = 0 := Nat.lt_one_iff.mp hj1
        subst hj0
        have hg : solsPairAndSingle.get ⟨0, hj⟩
            = ⟨1, [.num 0 .RED 1, .num 1 .GREEN 1]⟩ := rfl
        rw [hg]
        with_unfolding_all decide)
  rw [h]
  with_unfolding_all decide

theorem pyMin2_le_left (a b : ℚ) : pyMin2 a b ≤ a := by
  unfold pyMin2
  by_cases h : b < a
  · simp [h]
    exact le_of_lt h
  · simp [h]

theorem pyMin2_le_right (a b : ℚ) : pyMin2 a b ≤ b := by
  unfold pyMin2
  by_cases h : b < a
  · simp [h]
  · simp [h]
    exact le_of_not_lt h

theorem foldlMin_le_init (xs : List ℚ) (a : ℚ) : xs.foldl pyMin2 a ≤ a := by
  induction xs generalizing a with
  | nil => exact le_refl a
  | cons b xs ih =>
    rw [List.foldl_cons]
    exact le_trans (ih (pyMin2 a b)) (pyMin2_le_left a b)

theorem foldlMin_le_mem (xs : List ℚ) (a q : ℚ) (hq : q ∈ xs) :
    xs.foldl pyMin2 a ≤ q := by
  induction xs generalizing a with
  | nil => cases hq
  | cons b xs ih =>
    rw [List.foldl_cons]
    rcases List.mem_cons.mp hq with h | h
    · subst h
      exact le_trans (foldlMin_le_init xs (pyMin2 a q)) (pyMin2_le_right a q)
    · exact ih (pyMin2 a b) h

theorem foldlMin_mem (xs : List ℚ) (a : ℚ) :
    xs.foldl pyMin2 a = a ∨ xs.foldl pyMin2 a ∈ xs := by
  induction xs generalizing a with
  | nil => exact Or.inl rfl
  | cons b xs ih =>
    rw [List.foldl_cons]
    rcases ih (pyMin2 a b) with h | h
    · rw [h]
      unfold pyMin2
      by_cases hb : b < a
      · right
        simp [hb]
      · left
        simp [hb]
    · right
      exact List.mem_cons_of_mem b h

theorem listMin_le (l : List ℚ) (m : ℚ) (h : listMin l = some m) :
    ∀ q ∈ l, m ≤ q := by
  cases l with
  | nil => cases h
  | cons x xs =>
    simp only [listMin, Option.some.injEq] at h
    subst h
    intro q hq
    rcases List.mem_cons.mp hq with hh | hh
    · subst hh
      exact foldlMin_le_init xs q
    · exact foldlMin_le_mem xs x q hh

theorem listMin_mem (l : List ℚ) (m : ℚ) (h : listMin l = some m) : m ∈ l := by
  cases l with
  | nil => cases h
  | cons x xs =>
    simp only [listMin, Option.some.injEq] at h
    subst h
    rcases foldlMin_mem xs x with hh | hh
    · rw [hh]
      exact List.mem_cons_self x xs
    · exact List.mem_cons_of_mem x hh

theorem pyIndex_get? (l : List ℚ) (m : ℚ) (h : m ∈ l) :
    l.get? (pyIndex m l) = some m := by
  induction l with
  | nil => cases h
  | cons x xs ih =>
    by_cases hx : x = m
    · simp [pyIndex, hx]
    · have h' : m ∈ xs := by
        rcases List.mem_cons.mp h with hh | hh
        · exact absurd hh.symm hx
        · exact hh
      rw [show pyIndex m (x :: xs) = pyIndex m xs + 1 from by simp [pyIndex, hx],
        List.get?_cons_succ]
      exact ih h'

theorem pyIndex_first (l : List ℚ) (m : ℚ) :
    ∀ j, j < pyIndex m l → l.get? j ≠ some m := by
  induction l with
  | nil =>
    intro j hj
    simp [pyIndex] at hj
  | cons x xs ih =>
    by_cases hx : x = m
    · intro j hj
      simp [pyIndex, hx] at hj
    · intro j hj
      simp only [pyIndex, hx, if_false] at hj
      cases j with
      | zero =>
        simp [hx]
      | succ j' =>
        simp only [List.get?_cons_succ]
        exact ih j' (Nat.lt_of_succ_lt_succ hj)

/-- C4.  Confirmed: whenever `evaluate_hand` yields a Recommendation,
the recommended card is the (sorted, reindexed) hand's card at the
index of the minimum entry of the returned probability vector, and that
index is the lowest index attaining the minimum: every earlier entry
differs from the minimum, and every entry is at least the minimum. -/
theorem C4_discard_is_first_argmin (deck discard hand : Deck) (c : Card) (probs : List ℚ)
    (h : evaluate_hand deck discard hand = .ok (.recommendation c probs)) :
    ∃ i m, listMin probs = some m
      ∧ hand.sort_deck.cards.get? i = some c
      ∧ probs.get? i = some m
      ∧ (∀ q ∈ probs, m ≤ q)
      ∧ (∀ j, j < i → probs.get? j ≠ some m) := by
  simp only [evaluate_hand] at h
  split at h
  · exact absurd h (by simp)
  · split at h
    · exact absurd h (by simp)
    · rename_i probs' hcalc
      split at h
      · exact absurd h (by simp)
      · rename_i m hmin
        split at h
        · rename_i c' hget
          simp only [Except.ok.injEq, EvalResult.recommendation.injEq] at h
          obtain ⟨hc, hp⟩ := h
          subst hc
          rw [← hp]
          refine ⟨pyIndex m probs', m, hmin, ?_, ?_, ?_, ?_⟩
          · have hfst : (check_solutions discard hand).1 = hand.sort_deck := rfl
            rw [← hfst]
            exact hget
          · exact pyIndex_get? probs' m (listMin_mem probs' m hmin)
          · exact listMin_le probs' m hmin
          · exact fun j hj => pyIndex_first probs' m j hj
        · exact absurd h (by simp)

/-- Witness for C4: on the hand [RED 1, RED 2] with a one-joker deck the
probability vector is [1, 1], a tie, and the theorem applies at the
concrete Recommendation, yielding the lowest tied index. -/
theorem C4_discard_is_first_argmin_witness :
    ∃ i m, listMin [(1 : ℚ), 1] = some m
      ∧ handRed12.sort_deck.cards.get? i = some (.num 0 .RED 1)
      ∧ [(1 : ℚ), 1].get? i = some m
      ∧ (∀ q ∈ [(1 : ℚ), 1], m ≤ q)
      ∧ (∀ j, j < i → [(1 : ℚ), 1].get? j ≠ some m) :=
  C4_discard_is_first_argmin deckOneJoker emptyDeck handRed12 (.num 0 .RED 1) [1, 1]
    (by with_unfolding_all decide)

/-- Number of occurrences of card `x` in a card list (cards are compared
structurally; after reindexing, distinct positions have distinct `idx`,
so hand cards are pairwise distinct values). -/
def cCount (x : Card) (l : List Card) : Nat :=
  l.countP (fun y => decide (y = x))

/-- Total number of occurrences of card `x` across all solution groups. -/
def countInSols (x : Card) (sols : List Solution) : Nat :=
  (sols.map (fun g => cCount x g.cards)).sum

theorem cCount_nil (x : Card) : cCount x [] = 0 := rfl

theorem cCount_cons (x c : Card) (l : List Card) :
    cCount x (c :: l) = cCount x l + (if c = x then 1 else 0) := by
  simp [cCount, List.countP_cons]

theorem cCount_append (x : Card) (l1 l2 : List Card) :
    cCount x (l1 ++ l2) = cCount x l1 + cCount x l2 := by
  simp [cCount, List.countP_append]

theorem cCount_pos_of_mem (x : Card) (l : List Card) (h : x ∈ l) : 1 ≤ cCount x l := by
  have : 0 < l.countP (fun y => decide (y = x)) :=
    List.countP_pos_iff.mpr ⟨x, h, by simp⟩
  exact this

theorem cCount_filter_eq (p : Card → Bool) (x : Card) (l : List Card) (hx : p x = true) :
    cCount x (l.filter p) = cCount x l := by
  induction l with
  | nil => rfl
  | cons c cs ih =>
    by_cases hc : p c = true
    · rw [List.filter_cons_of_pos hc, cCount_cons, cCount_cons, ih]
    · have hcx : ¬ (c = x) := fun he => hc (he ▸ hx)
      rw [List.filter_cons_of_neg (by simpa using hc), cCount_cons, ih]
      simp [hcx]

theorem cCount_filter_zero (p : Card → Bool) (x : Card) (l : List Card) (hx : p x = false) :
    cCount x (l.filter p) = 0 := by
  induction l with
  | nil => rfl
  | cons c cs ih =>
    by_cases hc : p c = true
    · have hcx : ¬ (c = x) := fun he => by rw [he, hx] at hc; cases hc
      rw [List.filter_cons_of_pos hc, cCount_cons, ih]
      simp [hcx]
    · rw [List.filter_cons_of_neg (by simpa using hc)]
      exact ih

theorem countInSols_nil (x : Card) : countInSols x [] = 0 := rfl

theorem countInSols_cons (x : Card) (g : Solution) (gs : List Solution) :
    countInSols x (g :: gs) = cCount x g.cards + countInSols x gs := by
  simp [countInSols]

theorem countInSols_append (x : Card) (s1 s2 : List Solution) :
    countInSols x (s1 ++ s2) = countInSols x s1 + countInSols x s2 := by
  simp [countInSols]

theorem countInSols_insertNum (x c : Card) (n : Nat) (sols : List Solution) :
    countInSols x (insertNum c n sols) = countInSols x sols + (if c = x then 1 else 0) := by
  induction sols with
  | nil =>
    simp [insertNum, countInSols, cCount_cons, cCount_nil]
  | cons g gs ih =>
    by_cases hg : g.key = n ∧ g.cards.length < 2
    · rw [insertNum]
      rw [if_pos hg]
      rw [countInSols_cons, countInSols_cons, cCount_append, cCount_cons, cCount_nil]
      omega
    · rw [insertNum]
      rw [if_neg hg]
      rw [countInSols_cons, countInSols_cons, ih]
      omega

theorem countInSols_step1 (x : Card) (cs : List Card) (sols : List Solution)
    (hall : ∀ c ∈ cs, c.isNum = true) :
    countInSols x (step1 sols cs) = countInSols x sols + cCount x cs := by
  induction cs generalizing sols with
  | nil => simp [step1, cCount_nil]
  | cons c cs ih =>
    have hc : c.isNum = true := hall c (List.mem_cons_self c cs)
    have hcs : ∀ c' ∈ cs, c'.isNum = true :=
      fun c' h' => hall c' (List.mem_cons_of_mem c h')
    rw [show step1 sols (c :: cs) = step1 (insertNumberCard sols c) cs from rfl]
    rw [ih (insertNumberCard sols c) hcs, cCount_cons]
    cases c with
    | num i col n =>
      rw [show insertNumberCard sols (.num i col n) = insertNum (.num i col n) n sols from rfl]
      rw [countInSols_insertNum]
      omega
    | joker i cols ns => cases hc

theorem countInSols_attachDiscard (x t : Card) (sols : List Solution) :
    countInSols x (attachDiscard t sols).1 =
      countInSols x sols
        + (if (attachDiscard t sols).2 = true ∧ t = x then 1 else 0) := by
  induction sols with
  | nil => simp [attachDiscard, countInSols_nil]
  | cons g gs ih =>
    cases hb : borrowFit t g with
    | true =>
      simp only [attachDiscard, hb, if_pos]
      rw [countInSols_cons, countInSols_cons,
        show (extendSol g t).cards = g.cards ++ [t] from rfl,
        cCount_append, cCount_cons, cCount_nil]
      simp only [true_and]
      omega
    | false =>
      simp only [attachDiscard, hb, Bool.false_eq_true, if_false]
      rw [countInSols_cons, countInSols_cons, ih]
      omega

theorem countInSols_step2 (x : Card) (discard : Deck) (sols : List Solution)
    (hx : ∀ t, discard.cards.head? = some t → t ≠ x) :
    countInSols x (step2 discard sols).1 = countInSols x sols := by
  cases h : discard.cards.head? with
  | none => simp [step2, h]
  | some t =>
    have hne : t ≠ x := hx t h
    simp only [step2, h]
    rw [countInSols_attachDiscard]
    simp [hne]

theorem countInSols_attachJoker (x j : Card) (sols r : List Solution)
    (h : attachJoker j sols = some r) :
    countInSols x r = countInSols x sols + (if j = x then 1 else 0) := by
  induction sols generalizing r with
  | nil => cases h
  | cons g gs ih =>
    by_cases hg : g.cards.length < 2 ∧ g.key ∈ j.jokerNums
    · rw [attachJoker, if_pos hg] at h
      cases Option.some.inj h
      rw [countInSols_cons, countInSols_cons, cCount_append, cCount_cons, cCount_nil]
      omega
    · rw [attachJoker, if_neg hg] at h
      cases hr : attachJoker j gs with
      | none => rw [hr] at h; cases h
      | some r' =>
        rw [hr] at h
        cases Option.some.inj h
        rw [countInSols_cons, countInSols_cons, ih r' hr]
        omega

theorem countInSols_newJokerGroups (x j : Card) (ns : List Nat) :
    countInSols x (ns.map (fun n => ⟨n, [j]⟩ : Nat → Solution))
      = ns.length * (if j = x then 1 else 0) := by
  induction ns with
  | nil => simp [countInSols_nil]
  | cons n ns ih =>
    rw [List.map_cons, countInSols_cons, ih, cCount_cons, cCount_nil]
    by_cases hj : j = x
    · simp [hj]
      omega
    · simp [hj]

theorem countInSols_addJoker (x j : Card) (sols : List Solution) :
    ∃ k, (k = 1 ∨ k = j.jokerNums.length)
      ∧ countInSols x (addJoker sols j)
          = countInSols x sols + (if j = x then k else 0) := by
  cases h : attachJoker j sols with
  | some r =>
    refine ⟨1, Or.inl rfl, ?_⟩
    rw [show addJoker sols j = r from by rw [addJoker, h]]
    exact countInSols_attachJoker x j sols r h
  | none =>
    refine ⟨j.jokerNums.length, Or.inr rfl, ?_⟩
    rw [show addJoker sols j = sols ++ j.jokerNums.map (fun n => ⟨n, [j]⟩) from by
      rw [addJoker, h]]
    rw [countInSols_append, countInSols_newJokerGroups]
    by_cases hj : j = x
    · simp [hj]
    · simp [hj]

theorem countInSols_step3_absent (x : Card) (js : List Card) (sols : List Solution)
    (h : cCount x js = 0) :
    countInSols x (step3 sols js) = countInSols x sols := by
  induction js generalizing sols with
  | nil => rfl
  | cons j js ih =>
    rw [cCount_cons] at h
    have hj : ¬ (j = x) := by
      intro he
      simp [he] at h
    have hjs : cCount x js = 0 := by omega
    rw [show step3 sols (j :: js) = step3 (addJoker sols j) js from rfl, ih _ hjs]
    obtain ⟨k, _, hk⟩ := countInSols_addJoker x j sols
    rw [hk]
    simp [hj]

theorem countInSols_step3_once (x : Card) (js : List Card) (sols : List Solution)
    (h : cCount x js = 1) :
    ∃ k, (k = 1 ∨ k = x.jokerNums.length)
      ∧ countInSols x (step3 sols js) = countInSols x sols + k := by
  induction js generalizing sols with
  | nil => cases h
  | cons j js ih =>
    rw [cCount_cons] at h
    by_cases hj : j = x
    · subst hj
      have hjs : cCount j js = 0 := by simp at h; omega
      obtain ⟨k, hk1, hk⟩ := countInSols_addJoker j j sols
      refine ⟨k, hk1, ?_⟩
      rw [show step3 sols (j :: js) = step3 (addJoker sols j) js from rfl]
      rw [countInSols_step3_absent j js _ hjs, hk]
      simp
    · have hjs : cCount x js = 1 := by simp [hj] at h; omega
      obtain ⟨k, hk1, hk⟩ := ih (addJoker sols j) hjs
      refine ⟨k, hk1, ?_⟩
      rw [show step3 sols (j :: js) = step3 (addJoker sols j) js from rfl, hk]
      obtain ⟨k', _, hk'⟩ := countInSols_addJoker x j sols
      rw [hk']
      simp [hj]

theorem mem_reindexFrom_ge (y : Card) (k : Nat) (l : List Card)
    (h : y ∈ reindexFrom k l) : k ≤ y.cardIdx := by
  induction l generalizing k with
  | nil => cases h
  | cons c cs ih =>
    rcases List.mem_cons.mp h with hh | hh
    · rw [hh, cardIdx_withIdx]
    · exact le_trans (Nat.le_succ k) (ih (k + 1) hh)

theorem cCount_reindexFrom_le_one (x : Card) (k : Nat) (l : List Card) :
    cCount x (reindexFrom k l) ≤ 1 := by
  induction l generalizing k with
  | nil => simp [reindexFrom, cCount_nil]
  | cons c cs ih =>
    rw [show reindexFrom k (c :: cs) = c.withIdx k :: reindexFrom (k + 1) cs from rfl,
      cCount_cons]
    by_cases hc : c.withIdx k = x
    · have h0 : cCount x (reindexFrom (k + 1) cs) = 0 := by
        by_contra hph
        have hpos : 0 < cCount x (reindexFrom (k + 1) cs) := Nat.pos_of_ne_zero hph
        obtain ⟨a, ha, hax⟩ := List.countP_pos_iff.mp hpos
        have hax' : a = x := of_decide_eq_true hax
        subst hax'
        have hge := mem_reindexFrom_ge a (k + 1) cs ha
        rw [← hc, cardIdx_withIdx] at hge
        omega
      rw [h0]
      simp [hc]
    · simp only [hc, if_false]
      simpa using ih (k + 1)

theorem cCount_reindex_eq_one (x : Card) (l : List Card) (h : x ∈ reindexCards l) :
    cCount x (reindexCards l) = 1 :=
  le_antisymm (cCount_reindexFrom_le_one x 0 l) (cCount_pos_of_mem x _ h)

theorem sortDeck_cCount (hand : Deck) (hs : hand.isSorted = false) (x : Card)
    (h : x ∈ hand.sort_deck.cards) : cCount x hand.sort_deck.cards = 1 := by
  have hcards : hand.sort_deck.cards = reindexCards (pySort hand.cards) := by
    simp [Deck.sort_deck, hs]
  rw [hcards] at h ⊢
  exact cCount_reindex_eq_one x (pySort hand.cards) h

theorem isJoker_false_of_isNum (c : Card) (h : c.isNum = true) : c.isJoker = false := by
  cases c with
  | num i col n => rfl
  | joker i cols ns => cases h

theorem isNum_false_of_isJoker (c : Card) (h : c.isJoker = true) : c.isNum = false := by
  cases c with
  | num i col n => cases h
  | joker i cols ns => rfl

/-- C3 (amended).  The groups produced by `check_solutions` cover the
sorted hand, and duplication is confined to unplaced jokers: every
number card of the hand occurs in exactly one group, and every joker
occurs either in exactly one group (when the first-fit scan attached it
to an existing incomplete group) or in exactly one new singleton group
per eligible number (6 groups for a normally-constructed joker).  The
hypotheses require the hand not to be pre-flagged sorted (so handles are
freshly reindexed and hand cards are pairwise distinct) and the visible
discard card, if any, not to be structurally identical to a hand card. -/
theorem C3_groups_cover_each_card_once (hand discard : Deck)
    (hsort : hand.isSorted = false)
    (htop : ∀ t, discard.cards.head? = some t → t ∉ hand.sort_deck.cards) :
    (∀ c ∈ hand.sort_deck.cards, c.isNum = true →
        countInSols c (check_solutions discard hand).2.1 = 1)
    ∧ (∀ j ∈ hand.sort_deck.cards, j.isJoker = true →
        countInSols j (check_solutions discard hand).2.1 = 1
        ∨ countInSols j (check_solutions discard hand).2.1 = j.jokerNums.length) := by
  have hsplit : (check_solutions discard hand).2.1
      = step3 (step2 discard (step1 [] hand.sort_deck.number_cards)).1
          hand.sort_deck.jokers := rfl
  have hnumcards : hand.sort_deck.number_cards = hand.sort_deck.cards.filter Card.isNum := rfl
  have hjokcards : hand.sort_deck.jokers = hand.sort_deck.cards.filter Card.isJoker := rfl
  constructor
  · intro c hc hnum
    rw [hsplit]
    rw [countInSols_step3_absent c _ _ (by
      rw [hjokcards]
      exact cCount_filter_zero Card.isJoker c _ (isJoker_false_of_isNum c hnum))]
    rw [countInSols_step2 c discard _ (fun t ht he => htop t ht (by rw [he]; exact hc))]
    rw [countInSols_step1 c _ []
      (fun c' h' => by
        rw [hnumcards] at h'
        exact (List.mem_filter.mp h').2)]
    rw [countInSols_nil, hnumcards, cCount_filter_eq Card.isNum c _ hnum]
    rw [sortDeck_cCount hand hsort c hc]
  · intro j hj hjok
    rw [hsplit]
    have h1 : cCount j hand.sort_deck.jokers = 1 := by
      rw [hjokcards, cCount_filter_eq Card.isJoker j _ hjok]
      exact sortDeck_cCount hand hsort j hj
    obtain ⟨k, hk1, hk⟩ := countInSols_step3_once j _ _ h1
    rw [hk]
    rw [countInSols_step2 j discard _ (fun t ht he => htop t ht (by rw [he]; exact hj))]
    rw [countInSols_step1 j _ []
      (fun c' h' => by
        rw [hnumcards] at h'
        exact (List.mem_filter.mp h').2)]
    rw [countInSols_nil, hnumcards, cCount_filter_zero Card.isNum j _ (isNum_false_of_isJoker j hjok)]
    rcases hk1 with h | h
    · left
      omega
    · right
      omega

/-- A hand with one number card and one joker, for the C3 witness. -/
def handNumJoker : Deck :=
  ⟨[.num 7 .RED 1, .joker 9 [.RED, .GREEN] [1, 2, 3, 4, 5, 6]], 0, false⟩

/-- Witness for C3 at a concrete hand: the number card lands in exactly
one group and the unmatched joker in one singleton group per eligible
number. -/
theorem C3_groups_cover_each_card_once_witness :
    (∀ c ∈ handNumJoker.sort_deck.cards, c.isNum = true →
        countInSols c (check_solutions emptyDeck handNumJoker).2.1 = 1)
    ∧ (∀ j ∈ handNumJoker.sort_deck.cards, j.isJoker = true →
        countInSols j (check_solutions emptyDeck handNumJoker).2.1 = 1
        ∨ countInSols j (check_solutions emptyDeck handNumJoker).2.1
            = j.jokerNums.length) :=
  C3_groups_cover_each_card_once handNumJoker emptyDeck rfl (fun _t ht => nomatch ht)
